import Mathlib

/-!
Verification development for the `renju_move_matching` repository.

The definitions below are a shallow embedding of the repository's Rust code:
`src/protocol.rs` (Yixin/Gomocup line protocol client), `src/move_matching.rs`
(evaluation task and one-shot task coordinator) and `src/lib.rs` (worker pool
setup).  Strings are processed as `List Char` with structural recursion so that
every definition evaluates inside the kernel; Rust `usize` arithmetic is
modelled as `Nat` with an explicit wrap at `2 ^ 64` where the source relies on
wrapping semantics.
-/

namespace RenjuMM

/-- Word size of the target platform: `usize` arithmetic wraps at `2 ^ 64`. -/
def wsize : Nat := 2 ^ 64

/-- Width of the bucket counters: `AtomicU32::fetch_add` wraps at `2 ^ 32`
in every build mode. -/
def u32size : Nat := 2 ^ 32

/-- Lowercases a token, character by character, as `str::to_lowercase` does on
the ASCII keywords the protocol uses. -/
def lowerChars (cs : List Char) : List Char := cs.map Char.toLower

/-- Accumulator-based worker for `splitWhitespaceChars`. -/
def splitWsAux : List Char → List Char → List (List Char)
  | [], acc => if acc = [] then [] else [acc.reverse]
  | c :: cs, acc =>
    if c.isWhitespace then
      if acc = [] then splitWsAux cs [] else acc.reverse :: splitWsAux cs []
    else splitWsAux cs (c :: acc)

/-- Rust `str::split_whitespace`: maximal non-whitespace runs, no empty
tokens. -/
def splitWhitespaceChars (cs : List Char) : List (List Char) := splitWsAux cs []

/-- Accumulator-based worker for `splitCommaChars`. -/
def splitCommaAux : List Char → List Char → List (List Char)
  | [], acc => [acc.reverse]
  | c :: cs, acc =>
    if c = ',' then acc.reverse :: splitCommaAux cs []
    else splitCommaAux cs (c :: acc)

/-- Rust `str::split(',')`: always yields at least one piece, keeps empty
pieces. -/
def splitCommaChars (cs : List Char) : List (List Char) := splitCommaAux cs []

/-- Joins tokens with single spaces, as `Vec::join(" ")` in the response
parser does for message payloads. -/
def joinSpaceChars : List (List Char) → List Char
  | [] => []
  | [t] => t
  | t :: ts => t ++ ' ' :: joinSpaceChars ts

/-- Digit value fold used by `parseU8`. -/
def digitsVal (cs : List Char) : Nat :=
  cs.foldl (fun a c => a * 10 + (c.toNat - 48)) 0

/-- Rust `str::parse::<u8>()`: an optional leading `+`, then one or more
ASCII digits, value at most `255`; anything else is a parse error. -/
def parseU8 (cs : List Char) : Option Nat :=
  let ds := match cs with
    | '+' :: rest => rest
    | other => other
  if ds = [] then none
  else if ds.all Char.isDigit then
    if digitsVal ds ≤ 255 then some (digitsVal ds) else none
  else none

/-! ## `src/protocol.rs` -/

/-- `ResponseParseErr` from `src/protocol.rs`. -/
inductive ResponseParseErr where
  | MissingCommand
  | MissingArgument
  | MissingCoordinate
  | InvalidCoordinate (s : List Char)
deriving DecidableEq

/-- `Response` from `src/protocol.rs`; coordinate payloads are the parsed
`u8` values, message payloads the joined token text. -/
inductive Response where
  | Ok
  | Move (x y : Nat)
  | Suggest (x y : Nat)
  | Debug (s : List Char)
  | Error (s : List Char)
  | Unknown (s : List Char)
  | Message (s : List Char)
  | None
deriving DecidableEq

/-- `EngineError` from `src/protocol.rs` (`IoError` payload dropped: the
embedding never inspects it). -/
inductive EngineError where
  | Error (s : List Char)
  | Unknown (s : List Char)
  | ResponseParseError (e : ResponseParseErr)
  | IoError
  | UnexpectedResponse (r : Response)
deriving DecidableEq

/-- Coordinate-pair parsing shared by the `suggest` arm and the default arm
of `FromStr for Response`: split on `','`, require two pieces, parse each as
`u8`, reporting the offending piece on failure. -/
def parseCoords (cs : List Char) : Except ResponseParseErr (Nat × Nat) :=
  match splitCommaChars cs with
  | xs :: ys :: _ =>
    match parseU8 xs with
    | none => .error (.InvalidCoordinate xs)
    | some x =>
      match parseU8 ys with
      | none => .error (.InvalidCoordinate ys)
      | some y => .ok (x, y)
  | _ => .error .MissingCoordinate

/-- `impl FromStr for Response` (src/protocol.rs:188-227): tokenize on
whitespace, take the first token, lowercase it, dispatch.  The `""` arm of the
Rust `match` is kept for fidelity even though `split_whitespace` can never
produce an empty token. -/
def responseFromChars (cs : List Char) : Except ResponseParseErr Response :=
  match splitWhitespaceChars cs with
  | [] => .error .MissingCommand
  | command :: rest =>
    let lc := lowerChars command
    if lc = "ok".toList then .ok .Ok
    else if lc = "suggest".toList then
      match rest with
      | [] => .error .MissingArgument
      | coords :: _ =>
        match parseCoords coords with
        | .error e => .error e
        | .ok (x, y) => .ok (.Suggest x y)
    else if lc = "debug".toList then .ok (.Debug (joinSpaceChars rest))
    else if lc = "error".toList then .ok (.Error (joinSpaceChars rest))
    else if lc = "unknown".toList then .ok (.Unknown (joinSpaceChars rest))
    else if lc = "message".toList then .ok (.Message (joinSpaceChars rest))
    else if lc = [] then .ok .None
    else
      match parseCoords lc with
      | .error e => .error e
      | .ok (x, y) => .ok (.Move x y)

/-- The blocking read loop of `Engine::send_command` (src/protocol.rs:83-119)
for a command that expects a response: read lines until a terminal response is
parsed.  `Suggest` is folded into `Move`; `Debug` and `Message` are logged and
skipped; `Error` and `Unknown` become terminal failures; a parse error is
terminal.  At end of input `read_line` keeps yielding an empty buffer, which
parses to `MissingCommand`. -/
def sendCommandLoop : List (List Char) → Except EngineError Response
  | [] => .error (.ResponseParseError .MissingCommand)
  | line :: rest =>
    match responseFromChars line with
    | .error e => .error (.ResponseParseError e)
    | .ok r =>
      match r with
      | .Ok => .ok .Ok
      | .Move x y => .ok (.Move x y)
      | .Suggest x y => .ok (.Move x y)
      | .Debug _ => sendCommandLoop rest
      | .Message _ => sendCommandLoop rest
      | .Error s => .error (.Error s)
      | .Unknown s => .error (.Unknown s)
      | .None => .ok .None

/-- `Command` from `src/protocol.rs`. -/
inductive Command where
  | Start (size : Nat)
  | Begin
  | Stop
  | ShowForbidden
  | HashClear
  | Turn (m : Nat × Nat)
  | Board (moves : List (Nat × Nat))
  | YixinBoard (moves : List (Nat × Nat))
  | Info (key value : List Char)
  | End
  | Restart

/-- CRLF line terminator used by every command line. -/
def crlf : List Char := ['\r', '\n']

/-- Decimal rendering of a coordinate or size, as Rust's `Display` for
unsigned integers. -/
def natChars (n : Nat) : List Char := (Nat.repr n).toList

/-- One `x,y,side` line of a board block: side `1` when the running ply index
is even, `2` when odd, exactly as the `enumerate` loop in the `Display`
implementation writes it. -/
def moveLineChars (i : Nat) (m : Nat × Nat) : List Char :=
  natChars m.1 ++ ',' :: natChars m.2 ++ ',' :: (if i % 2 = 0 then ['1'] else ['2']) ++ crlf

/-- The `for (i, (x, y)) in moves.iter().enumerate()` loop body of the board
block, carrying the running index. -/
def boardBodyChars (i : Nat) : List (Nat × Nat) → List Char
  | [] => []
  | m :: rest => moveLineChars i m ++ boardBodyChars (i + 1) rest

/-- `impl Display for Command` (src/protocol.rs:138-165), as the emitted
character stream. -/
def displayCommand : Command → List Char
  | .Start size => "START ".toList ++ natChars size ++ crlf
  | .Begin => "BEGIN".toList ++ crlf
  | .Stop => "yxstop".toList ++ crlf
  | .ShowForbidden => "yxshowforbid".toList ++ crlf
  | .HashClear => "yxhashclear".toList ++ crlf
  | .Turn m => "TURN ".toList ++ natChars m.1 ++ ',' :: natChars m.2 ++ crlf
  | .Board moves => "BOARD".toList ++ crlf ++ boardBodyChars 0 moves ++ ("DONE".toList ++ crlf)
  | .YixinBoard moves => "yxboard".toList ++ crlf ++ boardBodyChars 0 moves ++ ("DONE".toList ++ crlf)
  | .Info key value => "INFO ".toList ++ key ++ ' ' :: value ++ crlf
  | .End => "END".toList ++ crlf
  | .Restart => "RESTART".toList ++ crlf

/-! ## `src/db.rs` and `src/move_matching.rs` -/

/-- `Game` from `src/db.rs`: two participant ratings and the ordered move
sequence (`u8` coordinates as `Nat`). -/
structure Game where
  black_elo : Nat
  white_elo : Nat
  moves : List (Nat × Nat)

/-- `MoveMatchingTask` from `src/move_matching.rs`: the bucket references are
identified by the two participants' rating keys. -/
structure MoveMatchingTask where
  moves : List (Nat × Nat)
  idx : Nat
  blackElo : Nat
  whiteElo : Nat

/-- Which participant's local counter pair an increment targets. -/
inductive Side where
  | black
  | white
deriving DecidableEq

/-- One completed loop iteration of `match_challenge`: the ply index, the
local counter pair selected by its parity, and whether the engine's move
equalled the human move. -/
structure MCEvent where
  idx : Nat
  side : Side
  matched : Bool
deriving DecidableEq

/-- The observable effect of one `match_challenge` call: the returned value,
the amounts flushed into the two rating buckets, the increment applied to the
shared completed-game counter, the increments applied to the shared
completed-position counter during the loop, the board payloads sent to the
engine, and the completed iterations. -/
structure MCResult where
  result : Except EngineError Unit
  blackFlush : Nat × Nat
  whiteFlush : Nat × Nat
  completedInc : Nat
  positionsInc : Nat
  requested : List (Nat × List (Nat × Nat))
  counted : List MCEvent

/-- Outcome of running `match_challenge`: a Rust panic (out-of-bounds slice
or index), the worker blocking forever because the scripted engine has no
further answer, or a normal return. -/
inductive MCOutcome where
  | panicked
  | stuck
  | finished (r : MCResult)

/-- Rust `usize` subtraction of `2`, wrapping at `2 ^ 64`: the loop bound
`self.moves.len() - 2` underflows for move sequences shorter than two. -/
def usizeSub2 (n : Nat) : Nat := (n + (wsize - 2)) % wsize

/-- The literal (not interpolated) message built by the unexpected-response
arm of `match_challenge`. -/
def unexpectedAnswerMsg : List Char :=
  "Unexpected answer from engine \x7bx:?\x7d".toList

/-- Prepends the current iteration's request and completed-iteration record
onto the outcome of the remaining loop iterations. -/
def mcStep (idx : Nat) (ms : List (Nat × Nat)) (ev : MCEvent) : MCOutcome → MCOutcome
  | .finished r => .finished { r with
      requested := (idx, ms.take idx) :: r.requested,
      counted := ev :: r.counted }
  | o => o

/-- The `while self.idx < self.moves.len() - 2` loop of
`MoveMatchingTask::match_challenge` (src/move_matching.rs:41-67), driven by a
script of `send_command` results.  Each iteration selects the local counter
pair by index parity, sends `Command::Board(&moves[0..idx])` (the slice
panics when `idx > moves.len()`), and on a committed move compares it with
`moves[idx]`; an `Err` from `send_command` propagates through `?` without
reaching the flush, while any other `Ok` response records an error, breaks,
and still flushes. -/
def mcLoop (ms : List (Nat × Nat)) (B : Nat) :
    List (Except EngineError Response) → Nat → Nat × Nat → Nat × Nat → Nat → MCOutcome
  | script, idx, bl, wl, pos =>
    if idx < B then
      if ms.length < idx then .panicked
      else
        match script with
        | [] => .stuck
        | .error e :: _ =>
          .finished ⟨.error e, (0, 0), (0, 0), 0, pos, [(idx, ms.take idx)], []⟩
        | .ok (.Move x y) :: rest =>
          if idx < ms.length then
            let hit : Bool := decide ((x, y) = ms.getD idx (0, 0))
            let bl2 := if idx % 2 = 0 then
                ((if hit then bl.1 + 1 else bl.1), bl.2 + 1) else bl
            let wl2 := if idx % 2 = 0 then wl else
                ((if hit then wl.1 + 1 else wl.1), wl.2 + 1)
            mcStep idx ms ⟨idx, if idx % 2 = 0 then .black else .white, hit⟩
              (mcLoop ms B rest (idx + 1) bl2 wl2 (pos + 1))
          else .panicked
        | .ok _ :: _ =>
          .finished ⟨.error (.Error unexpectedAnswerMsg), bl, wl, 1, pos,
            [(idx, ms.take idx)], []⟩
    else .finished ⟨.ok (), bl, wl, 1, pos, [], []⟩

/-- `MoveMatchingTask::match_challenge` (src/move_matching.rs:36-83): local
counters start at zero and the loop starts at the task's cursor. -/
def matchChallenge (t : MoveMatchingTask) (script : List (Except EngineError Response)) :
    MCOutcome :=
  mcLoop t.moves (usizeSub2 t.moves.length) script t.idx (0, 0) (0, 0) 0

/-- Bucket deltas actually applied by a `match_challenge` run (zero when the
run never reached the flush). -/
def MCOutcome.bucketDeltas : MCOutcome → (Nat × Nat) × (Nat × Nat)
  | .finished r => (r.blackFlush, r.whiteFlush)
  | _ => ((0, 0), (0, 0))

/-- Completed-game counter delta applied by a `match_challenge` run. -/
def MCOutcome.completedDelta : MCOutcome → Nat
  | .finished r => r.completedInc
  | _ => 0

/-! ## The coordinator (`MoveMatching`) -/

/-- The coordinator state relevant to task distribution: the immutable game
list and the stored value of the atomic `next` cursor (a `usize`, so always
reduced modulo `2 ^ 64`). -/
structure MoveMatching where
  games : List Game
  next : Nat

/-- A fresh coordinator: `next: AtomicUsize::new(0)`
(src/move_matching.rs:191). -/
def mkMoveMatching (gs : List Game) : MoveMatching := ⟨gs, 0⟩

/-- The task built by `get_next_task` for one game: cursor starts at ply 5
and the bucket references are the two participants' rating keys
(src/move_matching.rs:99-106). -/
def taskFor (g : Game) : MoveMatchingTask := ⟨g.moves, 5, g.black_elo, g.white_elo⟩

/-- `MoveMatching::get_next_task` (src/move_matching.rs:94-110):
`fetch_add(1)` returns the old cursor (wrapping at `2 ^ 64`), and
`games.get(next)` decides between a task and `None`. -/
def get_next_task (m : MoveMatching) : Option MoveMatchingTask × MoveMatching :=
  let nextv := m.next
  let m2 : MoveMatching := ⟨m.games, (m.next + 1) % wsize⟩
  match m.games.get? nextv with
  | some g => (some (taskFor g), m2)
  | none => (none, m2)

/-- A linearized sequence of `get_next_task` calls: the atomic `fetch_add`
makes any concurrent interleaving equivalent to some such sequence. -/
def runCalls : MoveMatching → Nat → List (Option MoveMatchingTask) × MoveMatching
  | m, 0 => ([], m)
  | m, k + 1 =>
    let s := get_next_task m
    let rest := runCalls s.2 k
    (s.1 :: rest.1, rest.2)

/-- One worker loop from `move_matching_performance` (src/lib.rs:60-66):
`while let Some(mut task) = matching.get_next_task()` run the task, and on
`None` close the engine and exit.  Sequential model of a single worker,
returning the tasks it pulled; the fuel only bounds the recursion and is
irrelevant once it exceeds the task count. -/
def workerLoopCalls : MoveMatching → Nat → List MoveMatchingTask
  | _, 0 => []
  | m, fuel + 1 =>
    match get_next_task m with
    | (some t, m2) => t :: workerLoopCalls m2 fuel
    | (none, _) => []

/-! ## `src/lib.rs`: worker pool setup and checkpoint resume -/

/-- Number of worker loops spawned by `move_matching_performance`
(src/lib.rs:52): `(0..(threads as usize).min(games_count.unwrap_or(threads as
usize)))`, where `games_count` is the optional command-line cap on the number
of games, not the loaded list length. -/
def workerCount (threads : Nat) (games_count : Option Nat) : Nat :=
  min threads (games_count.getD threads)

/-- Length of the loaded game list (src/lib.rs:31-35): the first
`games_count` games when a cap is supplied (the slice `&games[0..i]` requires
`i ≤ dbLen`), the whole database otherwise. -/
def loadedGamesLength (dbLen : Nat) : Option Nat → Nat
  | some i => i
  | none => dbLen

/-- Modelled from the spec: `MoveMatching::from_checkpoint` is called from
src/lib.rs:43 but has no definition anywhere in the source tree.  Per the
spec, each game's expected evaluated-position count is its move-sequence
length minus the head skip (5) and tail skip (2). -/
def expectedPositions (g : Game) : Nat := g.moves.length - 7

/-- Summed expected evaluated-position counts of a game list. -/
def totalExpected (gs : List Game) : Nat := (gs.map expectedPositions).sum

/-- Modelled from the spec: the resume computation of
`MoveMatching::from_checkpoint` (no definition exists in the source tree;
src/lib.rs:43 is only its call site).  Walk games in original order,
subtracting each game's expected evaluated-position count from the
checkpoint's declared total-position budget; a game counts as fully
completed as long as the subtraction does not underflow, and the first game
at which it would underflow becomes the resume point.  Returns the resume
cursor and the completed-position count. -/
def resumeWalk : List Game → Nat → Nat × Nat
  | [], _ => (0, 0)
  | g :: gs, budget =>
    if expectedPositions g ≤ budget then
      let rest := resumeWalk gs (budget - expectedPositions g)
      (rest.1 + 1, rest.2 + expectedPositions g)
    else (0, 0)

/-! ## Rating buckets -/

/-- The rating-keyed bucket map, as a total function from rating to
`(matched, total)`; `move_matching_performance` pre-populates every key with
zeroes before any worker runs. -/
def zeroBuckets : Nat → Nat × Nat := fun _ => (0, 0)

/-- The four `AtomicU32::fetch_add` calls that flush a task's local deltas
into the two participants' buckets (src/move_matching.rs:68-79); each add
wraps at `2 ^ 32` as `fetch_add` does, and black and white may share a
rating key, in which case both pairs land in the same bucket. -/
def flushTask (bk : Nat → Nat × Nat) (t : MoveMatchingTask) (r : MCResult) :
    Nat → Nat × Nat :=
  fun e =>
    let v := bk e
    let v := if e = t.blackElo then
        ((v.1 + r.blackFlush.1) % u32size, (v.2 + r.blackFlush.2) % u32size) else v
    if e = t.whiteElo then
      ((v.1 + r.whiteFlush.1) % u32size, (v.2 + r.whiteFlush.2) % u32size) else v

/-- Stated from the spec's words (data model: bucket values are
"monotonically non-decreasing, updated only by atomic increment"): the
idealized unbounded accumulation of the same flushes.  The stored `u32`
counters of `flushTask` equal these true sums modulo `2 ^ 32`. -/
def flushTaskIdeal (bk : Nat → Nat × Nat) (t : MoveMatchingTask) (r : MCResult) :
    Nat → Nat × Nat :=
  fun e =>
    let v := bk e
    let v := if e = t.blackElo then (v.1 + r.blackFlush.1, v.2 + r.blackFlush.2) else v
    if e = t.whiteElo then (v.1 + r.whiteFlush.1, v.2 + r.whiteFlush.2) else v

/-- Folds a sequence of task executions (each a task plus its engine script)
over the bucket map: a run that panics or blocks never reaches the flush. -/
def applyRuns : (Nat → Nat × Nat) →
    List (MoveMatchingTask × List (Except EngineError Response)) → Nat → Nat × Nat
  | bk, [] => bk
  | bk, (t, s) :: rest =>
    match matchChallenge t s with
    | .finished r => applyRuns (flushTask bk t r) rest
    | _ => applyRuns bk rest

/-- The same fold with the idealized unbounded counters of
`flushTaskIdeal`. -/
def applyRunsIdeal : (Nat → Nat × Nat) →
    List (MoveMatchingTask × List (Except EngineError Response)) → Nat → Nat × Nat
  | bk, [] => bk
  | bk, (t, s) :: rest =>
    match matchChallenge t s with
    | .finished r => applyRunsIdeal (flushTaskIdeal bk t r) rest
    | _ => applyRunsIdeal bk rest

/-! ## Spec-side description of the board wire format (for the refinement
claim about `Display for Command`) -/

/-- Stated from the spec's words: one `x,y,side` line per ply, the side
alternating and starting at `1` for the first mover. -/
def specBoardMoveLines : Bool → List (Nat × Nat) → List (List Char)
  | _, [] => []
  | firstMover, m :: rest =>
    (natChars m.1 ++ ',' :: natChars m.2 ++ ',' :: (if firstMover then ['1'] else ['2']))
      :: specBoardMoveLines (!firstMover) rest

/-- Stated from the spec's words: a `BOARD` line, the per-ply lines, then a
terminating `DONE` line. -/
def specBoardLines (moves : List (Nat × Nat)) : List (List Char) :=
  "BOARD".toList :: specBoardMoveLines true moves ++ ["DONE".toList]

/-- Joins lines, terminating every one of them with CRLF. -/
def joinCrlfLines (ls : List (List Char)) : List Char :=
  ls.foldr (fun l acc => l ++ crlf ++ acc) []

/-- Matched increments recorded for the first mover (even ply indices). -/
def cntBM (l : List MCEvent) : Nat := l.countP (fun e => e.idx % 2 == 0 && e.matched)

/-- Total increments recorded for the first mover (even ply indices). -/
def cntBT (l : List MCEvent) : Nat := l.countP (fun e => e.idx % 2 == 0)

/-- Matched increments recorded for the second mover (odd ply indices). -/
def cntWM (l : List MCEvent) : Nat := l.countP (fun e => !(e.idx % 2 == 0) && e.matched)

/-- Total increments recorded for the second mover (odd ply indices). -/
def cntWT (l : List MCEvent) : Nat := l.countP (fun e => !(e.idx % 2 == 0))

/-- Relation between a `match_challenge` outcome and the local counters it
started from: every recorded iteration targets the first mover's pair
exactly at even indices; the completed-game increment is zero or one; when
it is one the flushed amounts are the starting locals plus the per-parity
counts of the recorded iterations; when it is zero nothing was flushed and
the returned failure is literally one of the script's error entries. -/
def FlushSpec (script : List (Except EngineError Response)) (bl wl : Nat × Nat)
    (r : MCResult) : Prop :=
  (∀ e ∈ r.counted, (e.side = Side.black ↔ e.idx % 2 = 0)) ∧
  (r.completedInc = 0 ∨ r.completedInc = 1) ∧
  (r.completedInc = 1 →
    r.blackFlush = (bl.1 + cntBM r.counted, bl.2 + cntBT r.counted) ∧
    r.whiteFlush = (wl.1 + cntWM r.counted, wl.2 + cntWT r.counted)) ∧
  (r.completedInc = 0 →
    r.blackFlush = (0, 0) ∧ r.whiteFlush = (0, 0) ∧
    ∃ e, r.result = .error e ∧ Except.error e ∈ script)

/-! ## Concrete inputs used by counterexamples and witnesses -/

/-- A ten-ply game whose move at ply `i` is `(i, i)`. -/
def demoMoves : List (Nat × Nat) :=
  [(0, 0), (1, 1), (2, 2), (3, 3), (4, 4), (5, 5), (6, 6), (7, 7), (8, 8), (9, 9)]

/-- The ten-ply demonstration game. -/
def demoGame : Game := ⟨1500, 1600, demoMoves⟩

/-- The task `get_next_task` would build for `demoGame`. -/
def demoTask : MoveMatchingTask := ⟨demoMoves, 5, 1500, 1600⟩

/-- A scripted engine that answers the first request with the correct move
and the second request with an error response. -/
def demoErrScript : List (Except EngineError Response) :=
  [.ok (.Move 5 5), .error (.Error "fail".toList)]

/-- A scripted engine that answers the first request with the correct move
and the second request with an acknowledgement where a move was expected. -/
def demoBreakScript : List (Except EngineError Response) :=
  [.ok (.Move 5 5), .ok .Ok]

/-- A scripted engine that answers all three requests of the ten-ply game
with committed moves (correct at plies 5 and 7, wrong at ply 6). -/
def demoOkScript : List (Except EngineError Response) :=
  [.ok (.Move 5 5), .ok (.Move 0 0), .ok (.Move 7 7)]

/-- Observable effect of `demoTask` against `demoErrScript`. -/
def demoErrResult : MCResult :=
  ⟨.error (.Error "fail".toList), (0, 0), (0, 0), 0, 1,
   [(5, demoMoves.take 5), (6, demoMoves.take 6)], [⟨5, .white, true⟩]⟩

/-- Observable effect of `demoTask` against `demoBreakScript`. -/
def demoBreakResult : MCResult :=
  ⟨.error (.Error unexpectedAnswerMsg), (0, 0), (1, 1), 1, 1,
   [(5, demoMoves.take 5), (6, demoMoves.take 6)], [⟨5, .white, true⟩]⟩

/-- Observable effect of `demoTask` against `demoOkScript`. -/
def demoOkResult : MCResult :=
  ⟨.ok (), (0, 1), (2, 2), 1, 3,
   [(5, demoMoves.take 5), (6, demoMoves.take 6), (7, demoMoves.take 7)],
   [⟨5, .white, true⟩, ⟨6, .black, false⟩, ⟨7, .white, true⟩]⟩

/-- A seven-ply game: its expected evaluated-position count is zero. -/
def demoShortGame : Game := ⟨1500, 1600, demoMoves.take 7⟩

/-- A nine-ply game whose two participants share the rating 1500: each
evaluated ply's increments land in the single bucket 1500. -/
def wrapTask : MoveMatchingTask := ⟨demoMoves.take 9, 5, 1500, 1500⟩

/-- A scripted engine answering the nine-ply game's two requests with the
correct move and then a wrong move: the run flushes matched 1 / total 2
into bucket 1500. -/
def wrapScript : List (Except EngineError Response) :=
  [.ok (.Move 5 5), .ok (.Move 0 0)]

/-- Observable effect of `wrapTask` against `wrapScript`. -/
def wrapResult : MCResult :=
  ⟨.ok (), (0, 1), (1, 1), 1, 2,
   [(5, (demoMoves.take 9).take 5), (6, (demoMoves.take 9).take 6)],
   [⟨5, .white, true⟩, ⟨6, .black, false⟩]⟩

/-! ## Helper lemmas -/

theorem boardBodyChars_eq_foldr (moves : List (Nat × Nat)) :
    ∀ (i : Nat) (b : Bool) (tail : List Char), b = decide (i % 2 = 0) →
      boardBodyChars i moves ++ tail
        = (specBoardMoveLines b moves).foldr (fun l acc => l ++ crlf ++ acc) tail := by
  induction moves with
  | nil => intro i b tail hb; simp [boardBodyChars, specBoardMoveLines]
  | cons m rest ih =>
    intro i b tail hb
    have hflip : (!b) = decide ((i + 1) % 2 = 0) := by
      rcases Nat.even_or_odd i with h | h
      · have h0 : i % 2 = 0 := Nat.even_iff.mp h
        have h1 : (i + 1) % 2 = 1 := by omega
        subst hb; simp [h0, h1]
      · have h0 : i % 2 = 1 := Nat.odd_iff.mp h
        have h1 : (i + 1) % 2 = 0 := by omega
        subst hb; simp [h0, h1]
    have hside : (if b then ['1'] else ['2']) = (if i % 2 = 0 then ['1'] else ['2']) := by
      subst hb
      by_cases h : i % 2 = 0 <;> simp [h]
    simp only [boardBodyChars, specBoardMoveLines, List.foldr_cons, moveLineChars,
      ← ih (i + 1) (!b) tail hflip, hside]
    simp [List.append_assoc]

theorem mcStep_eq_finished {idx : Nat} {ms : List (Nat × Nat)} {ev : MCEvent}
    {o : MCOutcome} {r : MCResult} (h : mcStep idx ms ev o = .finished r) :
    ∃ r', o = .finished r' ∧
      r = { r' with requested := (idx, ms.take idx) :: r'.requested,
                    counted := ev :: r'.counted } := by
  cases o with
  | finished r' =>
    refine ⟨r', rfl, ?_⟩
    cases h
    rfl
  | panicked => exact MCOutcome.noConfusion h
  | stuck => exact MCOutcome.noConfusion h

theorem mcStep_ne_panicked {idx : Nat} {ms : List (Nat × Nat)} {ev : MCEvent}
    {o : MCOutcome} (h : o ≠ .panicked) : mcStep idx ms ev o ≠ .panicked := by
  cases o with
  | finished r' => exact fun hc => MCOutcome.noConfusion hc
  | panicked => exact absurd rfl h
  | stuck => exact fun hc => MCOutcome.noConfusion hc

theorem wsize_eq : wsize = 18446744073709551616 := by norm_num [wsize]

theorem usizeSub2_eq {n : Nat} (h2 : 2 ≤ n) (hw : n < wsize) : usizeSub2 n = n - 2 := by
  rw [wsize_eq] at hw
  simp only [usizeSub2, wsize_eq]
  omega

theorem usizeSub2_underflow {n : Nat} (h : n < 2) : usizeSub2 n = n + (wsize - 2) := by
  simp only [usizeSub2, wsize_eq]
  omega

theorem mcLoop_ne_panicked (ms : List (Nat × Nat)) (B : Nat) (hB : B ≤ ms.length)
    (script : List (Except EngineError Response)) :
    ∀ (idx : Nat) (bl wl : Nat × Nat) (pos : Nat),
      mcLoop ms B script idx bl wl pos ≠ .panicked := by
  induction script with
  | nil =>
    intro idx bl wl pos h
    simp only [mcLoop] at h
    rcases Nat.lt_or_ge idx B with hib | hib
    · rw [if_pos hib, if_neg (by omega)] at h
      exact MCOutcome.noConfusion h
    · rw [if_neg (Nat.not_lt.mpr hib)] at h
      exact MCOutcome.noConfusion h
  | cons hd tl ih =>
    intro idx bl wl pos h
    cases hd with
    | error e =>
      simp only [mcLoop] at h
      rcases Nat.lt_or_ge idx B with hib | hib
      · rw [if_pos hib, if_neg (by omega)] at h
        exact MCOutcome.noConfusion h
      · rw [if_neg (Nat.not_lt.mpr hib)] at h
        exact MCOutcome.noConfusion h
    | ok r =>
      cases r
      case Move x y =>
        simp only [mcLoop] at h
        rcases Nat.lt_or_ge idx B with hib | hib
        · rw [if_pos hib, if_neg (by omega), if_pos (by omega : idx < ms.length)] at h
          exact mcStep_ne_panicked (ih (idx + 1) _ _ (pos + 1)) h
        · rw [if_neg (Nat.not_lt.mpr hib)] at h
          exact MCOutcome.noConfusion h
      all_goals
        simp only [mcLoop] at h
        rcases Nat.lt_or_ge idx B with hib | hib
        · rw [if_pos hib, if_neg (by omega)] at h
          exact MCOutcome.noConfusion h
        · rw [if_neg (Nat.not_lt.mpr hib)] at h
          exact MCOutcome.noConfusion h

theorem flushSpec_leafOk (script : List (Except EngineError Response))
    (bl wl : Nat × Nat) (pos : Nat) :
    FlushSpec script bl wl ⟨.ok (), bl, wl, 1, pos, [], []⟩ := by
  refine ⟨by simp, Or.inr rfl, fun _ => ?_, fun h0 => by simp at h0⟩
  simp [cntBM, cntBT, cntWM, cntWT]

theorem flushSpec_leafErr {script : List (Except EngineError Response)}
    {e : EngineError} (hmem : Except.error e ∈ script) (bl wl : Nat × Nat)
    (pos : Nat) (reqs : List (Nat × List (Nat × Nat))) :
    FlushSpec script bl wl ⟨.error e, (0, 0), (0, 0), 0, pos, reqs, []⟩ := by
  exact ⟨by simp, Or.inl rfl, fun h1 => by simp at h1, fun _ => ⟨rfl, rfl, e, rfl, hmem⟩⟩

theorem flushSpec_leafBreak (script : List (Except EngineError Response))
    (bl wl : Nat × Nat) (pos : Nat) (reqs : List (Nat × List (Nat × Nat))) :
    FlushSpec script bl wl
      ⟨.error (.Error unexpectedAnswerMsg), bl, wl, 1, pos, reqs, []⟩ := by
  refine ⟨by simp, Or.inr rfl, fun _ => ?_, fun h0 => by simp at h0⟩
  simp [cntBM, cntBT, cntWM, cntWT]

theorem flushSpec_step {tl : List (Except EngineError Response)}
    {hd : Except EngineError Response} {bl wl : Nat × Nat} {r' : MCResult}
    (idx : Nat) (hitb : Bool) (req : Nat × List (Nat × Nat))
    (h : FlushSpec tl
      (if idx % 2 = 0 then ((if hitb then bl.1 + 1 else bl.1), bl.2 + 1) else bl)
      (if idx % 2 = 0 then wl else ((if hitb then wl.1 + 1 else wl.1), wl.2 + 1)) r') :
    FlushSpec (hd :: tl) bl wl
      { r' with requested := req :: r'.requested,
                counted :=
                  ⟨idx, if idx % 2 = 0 then Side.black else Side.white, hitb⟩
                    :: r'.counted } := by
  obtain ⟨hside, hor, h1, h0⟩ := h
  refine ⟨?_, hor, ?_, ?_⟩
  · intro e he
    rcases List.mem_cons.mp he with rfl | he
    · by_cases hpar : idx % 2 = 0 <;> simp [hpar]
    · exact hside e he
  · intro hc
    obtain ⟨hb, hw⟩ := h1 hc
    constructor
    · show r'.blackFlush = _
      rw [hb]
      simp only [cntBM, cntBT, List.countP_cons, Prod.mk.injEq]
      by_cases hpar : idx % 2 = 0 <;> cases hitb <;>
        simp [hpar] <;> omega
    · show r'.whiteFlush = _
      rw [hw]
      simp only [cntWM, cntWT, List.countP_cons, Prod.mk.injEq]
      by_cases hpar : idx % 2 = 0 <;> cases hitb <;>
        simp [hpar] <;> omega
  · intro hc
    obtain ⟨hbf, hwf, e, hres, hmem⟩ := h0 hc
    exact ⟨hbf, hwf, e, hres, List.mem_cons_of_mem hd hmem⟩

theorem mcLoop_spec (ms : List (Nat × Nat)) (B : Nat)
    (script : List (Except EngineError Response)) :
    ∀ (idx : Nat) (bl wl : Nat × Nat) (pos : Nat) (r : MCResult),
      mcLoop ms B script idx bl wl pos = .finished r → FlushSpec script bl wl r := by
  induction script with
  | nil =>
    intro idx bl wl pos r h
    simp only [mcLoop] at h
    rcases Nat.lt_or_ge idx B with hib | hib
    · rw [if_pos hib] at h
      by_cases hlen : ms.length < idx
      · rw [if_pos hlen] at h; exact MCOutcome.noConfusion h
      · rw [if_neg hlen] at h; exact MCOutcome.noConfusion h
    · rw [if_neg (Nat.not_lt.mpr hib)] at h
      cases h
      exact flushSpec_leafOk [] bl wl pos
  | cons hd tl ih =>
    intro idx bl wl pos r h
    cases hd with
    | error e =>
      simp only [mcLoop] at h
      rcases Nat.lt_or_ge idx B with hib | hib
      · rw [if_pos hib] at h
        by_cases hlen : ms.length < idx
        · rw [if_pos hlen] at h; exact MCOutcome.noConfusion h
        · rw [if_neg hlen] at h
          cases h
          exact flushSpec_leafErr (List.mem_cons_self _ _) bl wl pos _
      · rw [if_neg (Nat.not_lt.mpr hib)] at h
        cases h
        exact flushSpec_leafOk _ bl wl pos
    | ok r0 =>
      cases r0
      case Move x y =>
        simp only [mcLoop] at h
        rcases Nat.lt_or_ge idx B with hib | hib
        · rw [if_pos hib] at h
          by_cases hlen : ms.length < idx
          · rw [if_pos hlen] at h; exact MCOutcome.noConfusion h
          · rw [if_neg hlen] at h
            by_cases hidx : idx < ms.length
            · rw [if_pos hidx] at h
              obtain ⟨r', hrec, hr⟩ := mcStep_eq_finished h
              subst hr
              exact flushSpec_step idx _ _ (ih _ _ _ _ _ hrec)
            · rw [if_neg hidx] at h; exact MCOutcome.noConfusion h
        · rw [if_neg (Nat.not_lt.mpr hib)] at h
          cases h
          exact flushSpec_leafOk _ bl wl pos
      all_goals
        simp only [mcLoop] at h
        rcases Nat.lt_or_ge idx B with hib | hib
        · rw [if_pos hib] at h
          by_cases hlen : ms.length < idx
          · rw [if_pos hlen] at h; exact MCOutcome.noConfusion h
          · rw [if_neg hlen] at h
            cases h
            exact flushSpec_leafBreak _ bl wl pos _
        · rw [if_neg (Nat.not_lt.mpr hib)] at h
          cases h
          exact flushSpec_leafOk _ bl wl pos

theorem countP_and_le (p q : MCEvent → Bool) (l : List MCEvent) :
    l.countP (fun e => p e && q e) ≤ l.countP p := by
  induction l with
  | nil => simp
  | cons a l ih =>
    simp only [List.countP_cons]
    by_cases hp : p a <;> by_cases hq : q a <;> simp [hp, hq] <;> omega

theorem matchChallenge_flush_le (t : MoveMatchingTask)
    (s : List (Except EngineError Response)) (r : MCResult)
    (h : matchChallenge t s = .finished r) :
    r.blackFlush.1 ≤ r.blackFlush.2 ∧ r.whiteFlush.1 ≤ r.whiteFlush.2 := by
  obtain ⟨_, hor, h1, h0⟩ := mcLoop_spec t.moves _ s _ _ _ _ _ h
  rcases hor with hc | hc
  · obtain ⟨hb, hw, -⟩ := h0 hc
    rw [hb, hw]
    exact ⟨Nat.le_refl 0, Nat.le_refl 0⟩
  · obtain ⟨hb, hw⟩ := h1 hc
    rw [hb, hw]
    constructor
    · simpa [cntBM, cntBT] using
        countP_and_le (fun e => e.idx % 2 == 0) (fun e => e.matched) r.counted
    · simpa [cntWM, cntWT] using
        countP_and_le (fun e => !(e.idx % 2 == 0)) (fun e => e.matched) r.counted

theorem u32size_eq : u32size = 4294967296 := by norm_num [u32size]

theorem flushTaskIdeal_invariant {bk : Nat → Nat × Nat} {t : MoveMatchingTask}
    {s : List (Except EngineError Response)} {r : MCResult}
    (hr : matchChallenge t s = .finished r)
    (hbk : ∀ e, (bk e).1 ≤ (bk e).2) :
    ∀ e, ((flushTaskIdeal bk t r) e).1 ≤ ((flushTaskIdeal bk t r) e).2 := by
  intro e
  obtain ⟨hb, hw⟩ := matchChallenge_flush_le t s r hr
  have h3 := hbk e
  simp only [flushTaskIdeal]
  rcases eq_or_ne e t.whiteElo with h2 | h2
  · rw [if_pos h2]
    rcases eq_or_ne e t.blackElo with h1 | h1
    · rw [if_pos h1]; dsimp only; omega
    · rw [if_neg h1]; dsimp only; omega
  · rw [if_neg h2]
    rcases eq_or_ne e t.blackElo with h1 | h1
    · rw [if_pos h1]; dsimp only; omega
    · rw [if_neg h1]; omega

theorem applyRunsIdeal_invariant
    (runs : List (MoveMatchingTask × List (Except EngineError Response))) :
    ∀ (bk : Nat → Nat × Nat), (∀ e, (bk e).1 ≤ (bk e).2) →
      ∀ e, ((applyRunsIdeal bk runs) e).1 ≤ ((applyRunsIdeal bk runs) e).2 := by
  induction runs with
  | nil => intro bk hbk e; exact hbk e
  | cons ts rest ih =>
    intro bk hbk e
    obtain ⟨t, s⟩ := ts
    simp only [applyRunsIdeal]
    cases hmc : matchChallenge t s with
    | finished r => exact ih _ (flushTaskIdeal_invariant hmc hbk) e
    | panicked => exact ih _ hbk e
    | stuck => exact ih _ hbk e

theorem flushTask_mod {bkW bkI : Nat → Nat × Nat} {t : MoveMatchingTask}
    {r : MCResult}
    (h : ∀ e, (bkW e).1 = (bkI e).1 % u32size ∧ (bkW e).2 = (bkI e).2 % u32size) :
    ∀ e, ((flushTask bkW t r) e).1 = ((flushTaskIdeal bkI t r) e).1 % u32size ∧
         ((flushTask bkW t r) e).2 = ((flushTaskIdeal bkI t r) e).2 % u32size := by
  intro e
  obtain ⟨h1, h2⟩ := h e
  simp only [flushTask, flushTaskIdeal]
  rcases eq_or_ne e t.whiteElo with hw | hw
  · rw [if_pos hw, if_pos hw]
    rcases eq_or_ne e t.blackElo with hb | hb
    · rw [if_pos hb, if_pos hb]
      dsimp only
      rw [u32size_eq] at h1 h2 ⊢
      omega
    · rw [if_neg hb, if_neg hb]
      dsimp only
      rw [u32size_eq] at h1 h2 ⊢
      omega
  · rw [if_neg hw, if_neg hw]
    rcases eq_or_ne e t.blackElo with hb | hb
    · rw [if_pos hb, if_pos hb]
      dsimp only
      rw [u32size_eq] at h1 h2 ⊢
      omega
    · rw [if_neg hb, if_neg hb]
      exact ⟨h1, h2⟩

theorem applyRuns_mod
    (runs : List (MoveMatchingTask × List (Except EngineError Response))) :
    ∀ (bkW bkI : Nat → Nat × Nat),
      (∀ e, (bkW e).1 = (bkI e).1 % u32size ∧ (bkW e).2 = (bkI e).2 % u32size) →
      ∀ e, (applyRuns bkW runs e).1 = (applyRunsIdeal bkI runs e).1 % u32size ∧
           (applyRuns bkW runs e).2 = (applyRunsIdeal bkI runs e).2 % u32size := by
  induction runs with
  | nil => intro bkW bkI h e; exact h e
  | cons ts rest ih =>
    intro bkW bkI h e
    obtain ⟨t, s⟩ := ts
    simp only [applyRuns, applyRunsIdeal]
    cases hmc : matchChallenge t s with
    | finished r => exact ih _ _ (flushTask_mod h) e
    | panicked => exact ih _ _ h e
    | stuck => exact ih _ _ h e

/-! ## Claim theorems -/

/-- C7: encoding a full-board command for a move sequence produces a `BOARD`
line, then exactly one line per ply in order, formatted `x,y,side` with side
`1` at even ply index (first mover, equivalently alternating from `1`) and
`2` at odd index, then a terminating `DONE` line, every line
CRLF-terminated. -/
theorem c7_board_encoding (moves : List (Nat × Nat)) :
    displayCommand (.Board moves) = joinCrlfLines (specBoardLines moves) := by
  simp only [displayCommand, specBoardLines, joinCrlfLines, List.foldr_cons,
    List.foldr_append, List.foldr_cons, List.foldr_nil]
  rw [← boardBodyChars_eq_foldr moves 0 true ("DONE".toList ++ crlf ++ []) (by decide)]
  simp [List.append_assoc]

/-- C4 counterexample: the claim says an empty line yields the terminal empty
response (`Response::None`), but `split_whitespace` never produces a token
for an empty line, so parsing stops at `MissingCommand` before the `""`
match arm can ever fire: an empty line is a parse failure, not
`Response::None`. -/
theorem c4_counterexample :
    responseFromChars "\r\n".toList = .error .MissingCommand ∧
    sendCommandLoop ["\r\n".toList] = .error (.ResponseParseError .MissingCommand) ∧
    ¬ responseFromChars "\r\n".toList = .ok .None :=
  ⟨rfl, rfl, fun h => Except.noConfusion h⟩

/-- C4 (amended): one response line dispatches on its first
whitespace-delimited token, case-insensitively: `ok` acknowledges; `suggest
x,y` is an advisory move that `send_command` folds into the committed-move
kind; a bare `x,y` with no recognized keyword is the committed move (the
default case); `debug` and `message` are non-terminal and skipped without
ending the wait; `error ...` is a terminal failure carrying the remainder;
the keyword `unknown` (the engine's unknown-command report) is a terminal
failure; an empty line is a terminal `MissingCommand` parse failure (the
`""` parse arm is unreachable); and a coordinate pair that fails integer
parsing is a parse failure distinct from an engine-declared error. -/
theorem c4_response_dispatch :
    responseFromChars "OK".toList = .ok .Ok ∧
    responseFromChars "ok extra".toList = .ok .Ok ∧
    responseFromChars "SUGGEST 3,4".toList = .ok (.Suggest 3 4) ∧
    sendCommandLoop ["SUGGEST 3,4".toList] = .ok (.Move 3 4) ∧
    responseFromChars "7,8".toList = .ok (.Move 7 8) ∧
    sendCommandLoop ["DEBUG thinking".toList, "MESSAGE note".toList, "9,10".toList]
      = .ok (.Move 9 10) ∧
    responseFromChars "DEBUG thinking".toList = .ok (.Debug "thinking".toList) ∧
    responseFromChars "Message a b".toList = .ok (.Message "a b".toList) ∧
    responseFromChars "ERROR bad move".toList = .ok (.Error "bad move".toList) ∧
    sendCommandLoop ["ERROR bad move".toList] = .error (.Error "bad move".toList) ∧
    responseFromChars "UNKNOWN gibberish".toList = .ok (.Unknown "gibberish".toList) ∧
    sendCommandLoop ["UNKNOWN gibberish".toList] = .error (.Unknown "gibberish".toList) ∧
    responseFromChars "\r\n".toList = .error .MissingCommand ∧
    sendCommandLoop ["\r\n".toList] = .error (.ResponseParseError .MissingCommand) ∧
    responseFromChars "12,ab".toList = .error (.InvalidCoordinate "ab".toList) ∧
    sendCommandLoop ["12,ab".toList]
      = .error (.ResponseParseError (.InvalidCoordinate "ab".toList)) ∧
    (∀ s msg, EngineError.ResponseParseError s ≠ EngineError.Error msg) :=
  ⟨rfl, rfl, rfl, rfl, rfl, rfl, rfl, rfl, rfl, rfl, rfl, rfl, rfl, rfl, rfl, rfl,
    fun _ _ h => EngineError.noConfusion h⟩

/-- C1 counterexample: the claim says that with an engine answering the
first request with the correct move and the second request with an error
response, exactly 1 matched and 1 total increment reach the buckets and the
game still counts as completed.  In the source, `send_command`'s error
propagates through the `?` operator before the flush and the completed-game
increment are reached: zero increments reach the buckets and the
completed-game counter is not incremented. -/
theorem c1_counterexample :
    (matchChallenge demoTask demoErrScript).bucketDeltas = ((0, 0), (0, 0)) ∧
    (matchChallenge demoTask demoErrScript).completedDelta = 0 :=
  ⟨rfl, rfl⟩

/-- C1 (amended): on a terminal failure returned by `send_command` (engine
error, unknown command, parse or I/O failure), `match_challenge` stops
evaluating further plies and propagates the failure, but does not flush the
accumulated deltas and does not increment the completed-game counter (the
shared position counter keeps the increments already applied); only an
unexpected `Ok` response kind breaks out of the loop, flushes the partial
deltas, increments the completed-game counter, and returns an error.  With
the claim's scripted engine, zero matched/total increments reach the
buckets, the position counter gains exactly 1, and the game is not counted
completed; with an unexpected-response engine, the 1 matched/1 total partial
credit is flushed and the game counts as completed.  In general, whenever
the completed-game counter is not incremented, nothing was flushed and the
returned failure is one of the engine's scripted error results. -/
theorem c1_partial_flush :
    matchChallenge demoTask demoErrScript = .finished demoErrResult ∧
    matchChallenge demoTask demoBreakScript = .finished demoBreakResult ∧
    (∀ (t : MoveMatchingTask) (s : List (Except EngineError Response)) (r : MCResult),
      matchChallenge t s = .finished r → r.completedInc = 0 →
      r.blackFlush = (0, 0) ∧ r.whiteFlush = (0, 0) ∧
      ∃ e, r.result = .error e ∧ Except.error e ∈ s) :=
  ⟨rfl, rfl, fun t s _ h h0 => (mcLoop_spec t.moves _ s _ _ _ _ _ h).2.2.2 h0⟩

/-- C1 witness: the general part of `c1_partial_flush` applied to the
ten-ply demonstration game with the error-on-second-exchange script. -/
theorem c1_witness :
    demoErrResult.blackFlush = (0, 0) ∧ demoErrResult.whiteFlush = (0, 0) ∧
    ∃ e, demoErrResult.result = .error e ∧ Except.error e ∈ demoErrScript :=
  c1_partial_flush.2.2 demoTask demoErrScript demoErrResult rfl rfl

/-- C8: for every ply index `p` recorded by `match_challenge`, the local
counter pair selected for `p` is the first mover's (black's) iff `p` is
even; and when the run reaches the flush, the amounts flushed into the black
bucket are exactly the matched/total counts of the even-index iterations and
the amounts flushed into the white bucket exactly those of the odd-index
iterations. -/
theorem c8_side_parity (t : MoveMatchingTask) (s : List (Except EngineError Response))
    (r : MCResult) (h : matchChallenge t s = .finished r) :
    (∀ e ∈ r.counted, (e.side = Side.black ↔ e.idx % 2 = 0)) ∧
    (r.completedInc = 1 →
      r.blackFlush = (cntBM r.counted, cntBT r.counted) ∧
      r.whiteFlush = (cntWM r.counted, cntWT r.counted)) := by
  obtain ⟨hside, -, h1, -⟩ := mcLoop_spec t.moves _ s _ _ _ _ _ h
  refine ⟨hside, fun hc => ?_⟩
  obtain ⟨hb, hw⟩ := h1 hc
  rw [hb, hw]
  simp

/-- C8 witness: `c8_side_parity` applied to the ten-ply demonstration game
with the all-committed-moves script. -/
theorem c8_witness :
    (∀ e ∈ demoOkResult.counted, (e.side = Side.black ↔ e.idx % 2 = 0)) ∧
    (demoOkResult.completedInc = 1 →
      demoOkResult.blackFlush = (cntBM demoOkResult.counted, cntBT demoOkResult.counted) ∧
      demoOkResult.whiteFlush = (cntWM demoOkResult.counted, cntWT demoOkResult.counted)) :=
  c8_side_parity demoTask demoOkScript demoOkResult rfl

theorem flushTask_wrap_at (bk : Nat → Nat × Nat) :
    flushTask bk wrapTask wrapResult 1500
      = (((bk 1500).1 + 1) % u32size, ((bk 1500).2 + 2) % u32size) := by
  simp only [flushTask, wrapTask, wrapResult]
  norm_num

theorem applyRuns_wrapChain (n : Nat) :
    ∀ (bk : Nat → Nat × Nat), (bk 1500).1 < u32size → (bk 1500).2 < u32size →
      applyRuns bk (List.replicate n (wrapTask, wrapScript)) 1500
        = (((bk 1500).1 + n) % u32size, ((bk 1500).2 + 2 * n) % u32size) := by
  induction n with
  | zero =>
    intro bk h1 h2
    simp only [List.replicate_zero, applyRuns]
    rw [Nat.add_zero, Nat.mul_zero, Nat.add_zero,
      Nat.mod_eq_of_lt h1, Nat.mod_eq_of_lt h2]
  | succ n ih =>
    intro bk h1 h2
    simp only [List.replicate_succ, applyRuns]
    rw [show matchChallenge wrapTask wrapScript = .finished wrapResult from rfl]
    show applyRuns (flushTask bk wrapTask wrapResult) (List.replicate n (wrapTask, wrapScript)) 1500 = _
    have hu : 0 < u32size := by rw [u32size_eq]; omega
    rw [ih (flushTask bk wrapTask wrapResult)
      (by rw [flushTask_wrap_at]; exact Nat.mod_lt _ hu)
      (by rw [flushTask_wrap_at]; exact Nat.mod_lt _ hu)]
    rw [flushTask_wrap_at]
    dsimp only
    rw [u32size_eq]
    simp only [Prod.mk.injEq]
    constructor <;> omega

/-- C9 counterexample: the bucket counters are `u32` and `fetch_add` wraps
at `2 ^ 32`, so `matched ≤ total` does not hold "at all times": `2 ^ 31`
tasks, each a nine-ply game with both participants at rating 1500 and an
engine matching one of its two evaluated plies, each flush matched 1 /
total 2 into the same bucket; after them the stored bucket holds matched
`2 ^ 31` and total `0` (the local per-task deltas stay tiny, so no local
counter overflows and nothing panics). -/
theorem c9_counterexample :
    (applyRuns zeroBuckets (List.replicate (2 ^ 31) (wrapTask, wrapScript)) 1500).1
      = 2 ^ 31 ∧
    (applyRuns zeroBuckets (List.replicate (2 ^ 31) (wrapTask, wrapScript)) 1500).2
      = 0 ∧
    ¬ (applyRuns zeroBuckets (List.replicate (2 ^ 31) (wrapTask, wrapScript)) 1500).1
        ≤ (applyRuns zeroBuckets (List.replicate (2 ^ 31) (wrapTask, wrapScript)) 1500).2 := by
  have h := applyRuns_wrapChain (2 ^ 31) zeroBuckets
    (by rw [u32size_eq]; norm_num [zeroBuckets])
    (by rw [u32size_eq]; norm_num [zeroBuckets])
  rw [h, u32size_eq]
  norm_num [zeroBuckets]

/-- C9 (amended): the increment discipline does hold — within one task a
matched increment is recorded only together with the total increment of the
same local pair, the flush adds both deltas to the same bucket pair, and no
operation decrements — so the idealized unbounded per-bucket sums satisfy
`matched ≤ total` after any sequence of task executions from
zero-initialized buckets, and each finished run's own deltas satisfy
`matched ≤ total`.  But the stored bucket counters are `u32`s equal to
those sums modulo `2 ^ 32` (`fetch_add` wraps), so the stored values
satisfy `matched ≤ total` only in snapshots where the bucket's true
accumulated total is below `2 ^ 32`. -/
theorem c9_bucket_invariant :
    (∀ (runs : List (MoveMatchingTask × List (Except EngineError Response))) (e : Nat),
      (applyRunsIdeal zeroBuckets runs e).1 ≤ (applyRunsIdeal zeroBuckets runs e).2) ∧
    (∀ (runs : List (MoveMatchingTask × List (Except EngineError Response))) (e : Nat),
      (applyRuns zeroBuckets runs e).1 = (applyRunsIdeal zeroBuckets runs e).1 % u32size ∧
      (applyRuns zeroBuckets runs e).2 = (applyRunsIdeal zeroBuckets runs e).2 % u32size) ∧
    (∀ (runs : List (MoveMatchingTask × List (Except EngineError Response))) (e : Nat),
      (applyRunsIdeal zeroBuckets runs e).2 < u32size →
      (applyRuns zeroBuckets runs e).1 ≤ (applyRuns zeroBuckets runs e).2) ∧
    (∀ (t : MoveMatchingTask) (s : List (Except EngineError Response)) (r : MCResult),
      matchChallenge t s = .finished r →
      r.blackFlush.1 ≤ r.blackFlush.2 ∧ r.whiteFlush.1 ≤ r.whiteFlush.2) := by
  have hideal : ∀ runs e,
      (applyRunsIdeal zeroBuckets runs e).1 ≤ (applyRunsIdeal zeroBuckets runs e).2 :=
    fun runs e => applyRunsIdeal_invariant runs zeroBuckets (fun _ => Nat.le_refl 0) e
  have hmod : ∀ runs e,
      (applyRuns zeroBuckets runs e).1 = (applyRunsIdeal zeroBuckets runs e).1 % u32size ∧
      (applyRuns zeroBuckets runs e).2 = (applyRunsIdeal zeroBuckets runs e).2 % u32size :=
    fun runs e => applyRuns_mod runs zeroBuckets zeroBuckets
      (fun _ => ⟨(Nat.zero_mod _).symm, (Nat.zero_mod _).symm⟩) e
  refine ⟨hideal, hmod, ?_, matchChallenge_flush_le⟩
  intro runs e hlt
  obtain ⟨h1, h2⟩ := hmod runs e
  rw [h1, h2, Nat.mod_eq_of_lt hlt,
    Nat.mod_eq_of_lt (Nat.lt_of_le_of_lt (hideal runs e) hlt)]
  exact hideal runs e

/-- C9 witness: the below-wrap part and the per-run part of
`c9_bucket_invariant` applied to the ten-ply demonstration game with the
all-committed-moves script. -/
theorem c9_witness :
    ((applyRunsIdeal zeroBuckets [(demoTask, demoOkScript)] 1600).2 < u32size ∧
     (applyRuns zeroBuckets [(demoTask, demoOkScript)] 1600).1
       ≤ (applyRuns zeroBuckets [(demoTask, demoOkScript)] 1600).2) ∧
    (demoOkResult.blackFlush.1 ≤ demoOkResult.blackFlush.2 ∧
     demoOkResult.whiteFlush.1 ≤ demoOkResult.whiteFlush.2) :=
  ⟨⟨by decide, c9_bucket_invariant.2.2.1 [(demoTask, demoOkScript)] 1600 (by decide)⟩,
   c9_bucket_invariant.2.2.2 demoTask demoOkScript demoOkResult rfl⟩

/-- C10: `match_challenge` silently requires at least 2 moves: the loop
bound `moves.len() - 2` underflows in `usize` arithmetic for 0 or 1 moves,
so the slice `moves[0..5]` of the first iteration goes out of bounds (a
Rust panic), whatever the engine answers; for every game of length at least
2 no out-of-bounds access occurs, and lengths 2 through 7 evaluate zero
plies (returning success, flushing nothing, still counting the game as
completed). -/
theorem c10_length_precondition :
    (∀ (ms : List (Nat × Nat)) (b w : Nat) (script : List (Except EngineError Response)),
      ms.length < 2 → matchChallenge ⟨ms, 5, b, w⟩ script = .panicked) ∧
    (∀ (ms : List (Nat × Nat)) (b w : Nat) (script : List (Except EngineError Response)),
      2 ≤ ms.length → ms.length < wsize →
      matchChallenge ⟨ms, 5, b, w⟩ script ≠ .panicked) ∧
    (∀ (ms : List (Nat × Nat)) (b w : Nat) (script : List (Except EngineError Response)),
      2 ≤ ms.length → ms.length ≤ 7 →
      matchChallenge ⟨ms, 5, b, w⟩ script
        = .finished ⟨.ok (), (0, 0), (0, 0), 1, 0, [], []⟩) := by
  refine ⟨?_, ?_, ?_⟩
  · intro ms b w script hlen
    have hB : 5 < usizeSub2 ms.length := by
      rw [usizeSub2_underflow hlen, wsize_eq]; omega
    have h5 : ms.length < 5 := by omega
    show mcLoop ms (usizeSub2 ms.length) script 5 (0, 0) (0, 0) 0 = .panicked
    cases script with
    | nil => simp only [mcLoop]; rw [if_pos hB, if_pos h5]
    | cons hd tl =>
      cases hd with
      | error e => simp only [mcLoop]; rw [if_pos hB, if_pos h5]
      | ok r0 => cases r0 <;> (simp only [mcLoop]; rw [if_pos hB, if_pos h5])
  · intro ms b w script h2 hw h
    have hB : usizeSub2 ms.length ≤ ms.length := by
      rw [usizeSub2_eq h2 hw]; omega
    exact mcLoop_ne_panicked ms (usizeSub2 ms.length) hB script 5 (0, 0) (0, 0) 0 h
  · intro ms b w script h2 h7
    have hB : ¬ 5 < usizeSub2 ms.length := by
      rw [usizeSub2_eq h2 (by rw [wsize_eq]; omega)]; omega
    show mcLoop ms (usizeSub2 ms.length) script 5 (0, 0) (0, 0) 0 = _
    cases script with
    | nil => simp only [mcLoop]; rw [if_neg hB]
    | cons hd tl =>
      cases hd with
      | error e => simp only [mcLoop]; rw [if_neg hB]
      | ok r0 => cases r0 <;> (simp only [mcLoop]; rw [if_neg hB])

/-- C10 witness: `c10_length_precondition` applied to a zero-move game (the
panic), the ten-ply demonstration game (no panic) and a seven-move game
(zero plies evaluated). -/
theorem c10_witness :
    matchChallenge ⟨[], 5, 1, 2⟩ [] = .panicked ∧
    matchChallenge demoTask demoOkScript ≠ .panicked ∧
    matchChallenge ⟨demoMoves.take 7, 5, 1, 2⟩ []
      = .finished ⟨.ok (), (0, 0), (0, 0), 1, 0, [], []⟩ :=
  ⟨c10_length_precondition.1 [] 1 2 [] (by decide),
   c10_length_precondition.2.1 demoMoves 1500 1600 demoOkScript (by decide)
     (by rw [wsize_eq]; norm_num [demoMoves]),
   c10_length_precondition.2.2 (demoMoves.take 7) 1 2 [] (by decide) (by decide)⟩

theorem mcLoop_okMoves (ms : List (Nat × Nat)) (B : Nat) (hB : B ≤ ms.length)
    (script : List (Except EngineError Response)) :
    ∀ (idx : Nat) (bl wl : Nat × Nat) (pos : Nat),
      (∀ x ∈ script, ∃ a c, x = .ok (.Move a c)) →
      B - idx ≤ script.length →
      ∃ r, mcLoop ms B script idx bl wl pos = .finished r ∧
        r.result = .ok () ∧ r.completedInc = 1 ∧
        r.requested = (List.range' idx (B - idx)).map (fun p => (p, ms.take p)) ∧
        r.counted.map MCEvent.idx = List.range' idx (B - idx) ∧
        r.positionsInc = pos + (B - idx) := by
  induction script with
  | nil =>
    intro idx bl wl pos hok hlen
    simp only [List.length_nil] at hlen
    have h0 : B - idx = 0 := by omega
    refine ⟨⟨.ok (), bl, wl, 1, pos, [], []⟩, ?_, rfl, rfl, ?_, ?_, ?_⟩
    · simp only [mcLoop]; rw [if_neg (by omega)]
    · rw [h0]; simp
    · rw [h0]; simp
    · simp [h0]
  | cons hd tl ih =>
    intro idx bl wl pos hok hlen
    by_cases hib : idx < B
    · obtain ⟨a, c, rfl⟩ := hok hd (List.mem_cons_self hd tl)
      have hidx : idx < ms.length := by omega
      have hok' : ∀ x ∈ tl, ∃ a c, x = .ok (.Move a c) :=
        fun x hx => hok x (List.mem_cons_of_mem _ hx)
      have hlen' : B - (idx + 1) ≤ tl.length := by
        simp only [List.length_cons] at hlen; omega
      obtain ⟨r', hrec, hres, hcomp, hreq, hcnt, hposn⟩ :=
        ih (idx + 1)
          (if idx % 2 = 0 then
            ((if decide ((a, c) = ms.getD idx (0, 0)) then bl.1 + 1 else bl.1), bl.2 + 1)
          else bl)
          (if idx % 2 = 0 then wl else
            ((if decide ((a, c) = ms.getD idx (0, 0)) then wl.1 + 1 else wl.1), wl.2 + 1))
          (pos + 1) hok' hlen'
      have hsplit : B - idx = (B - (idx + 1)) + 1 := by omega
      refine ⟨{ r' with
          requested := (idx, ms.take idx) :: r'.requested,
          counted := ⟨idx, if idx % 2 = 0 then Side.black else Side.white,
            decide ((a, c) = ms.getD idx (0, 0))⟩ :: r'.counted },
        ?_, hres, hcomp, ?_, ?_, ?_⟩
      · simp only [mcLoop]
        rw [if_pos hib, if_neg (by omega : ¬ ms.length < idx), if_pos hidx, hrec]
        rfl
      · show (idx, ms.take idx) :: r'.requested = _
        rw [hsplit, List.range'_succ, List.map_cons, hreq]
      · show idx :: r'.counted.map MCEvent.idx = _
        rw [hsplit, List.range'_succ, hcnt]
      · show r'.positionsInc = pos + (B - idx)
        omega
    · simp only [List.length_cons] at hlen
      have h0 : B - idx = 0 := by omega
      refine ⟨⟨.ok (), bl, wl, 1, pos, [], []⟩, ?_, rfl, rfl, ?_, ?_, ?_⟩
      · cases hd with
        | error e => simp only [mcLoop]; rw [if_neg hib]
        | ok r0 => cases r0 <;> (simp only [mcLoop]; rw [if_neg hib])
      · rw [h0]; simp
      · rw [h0]; simp
      · simp [h0]

/-- C3: for a game of length `n ≥ 2`, against an engine that answers every
request with a committed move, `match_challenge` starting from the cursor
`get_next_task` sets (ply 5) issues exactly one request per ply index in the
half-open range `[5, n - 2)` — which has `n - 7` elements — in increasing
order, each carrying the board prefix `moves[0..p]`, and records exactly one
comparison per such index. -/
theorem c3_evaluation_range (ms : List (Nat × Nat)) (b w : Nat)
    (script : List (Except EngineError Response))
    (h2 : 2 ≤ ms.length) (hw : ms.length < wsize)
    (hok : ∀ x ∈ script, ∃ a c, x = .ok (.Move a c))
    (hlen : ms.length - 7 ≤ script.length) :
    ∃ r, matchChallenge ⟨ms, 5, b, w⟩ script = .finished r ∧
      r.result = .ok () ∧
      r.requested = (List.range' 5 (ms.length - 7)).map (fun p => (p, ms.take p)) ∧
      r.counted.map MCEvent.idx = List.range' 5 (ms.length - 7) := by
  have hBle : usizeSub2 ms.length ≤ ms.length := by rw [usizeSub2_eq h2 hw]; omega
  have h57 : usizeSub2 ms.length - 5 = ms.length - 7 := by rw [usizeSub2_eq h2 hw]; omega
  obtain ⟨r, hmc, hres, -, hreq, hcnt, -⟩ :=
    mcLoop_okMoves ms _ hBle script 5 (0, 0) (0, 0) 0 hok (by rw [h57]; exact hlen)
  exact ⟨r, hmc, hres, by rw [hreq, h57], by rw [hcnt, h57]⟩

/-- C3 witness: the ten-ply demonstration game yields exactly the three
requests at ply indices 5, 6 and 7. -/
theorem c3_witness :
    (∃ r, matchChallenge ⟨demoMoves, 5, 1500, 1600⟩ demoOkScript = .finished r ∧
      r.result = .ok () ∧
      r.requested = (List.range' 5 (demoMoves.length - 7)).map
        (fun p => (p, demoMoves.take p)) ∧
      r.counted.map MCEvent.idx = List.range' 5 (demoMoves.length - 7)) ∧
    List.range' 5 (demoMoves.length - 7) = [5, 6, 7] :=
  ⟨c3_evaluation_range demoMoves 1500 1600 demoOkScript (by decide)
    (by rw [wsize_eq]; norm_num [demoMoves])
    (by
      intro x hx
      simp only [demoOkScript, List.mem_cons, List.not_mem_nil, or_false] at hx
      rcases hx with rfl | rfl | rfl
      · exact ⟨5, 5, rfl⟩
      · exact ⟨0, 0, rfl⟩
      · exact ⟨7, 7, rfl⟩)
    (by decide), by decide⟩

theorem get_next_task_eq (gs : List Game) (j : Nat) :
    get_next_task ⟨gs, j⟩ = ((gs.get? j).map taskFor, ⟨gs, (j + 1) % wsize⟩) := by
  simp only [get_next_task]
  cases gs.get? j <;> rfl

theorem runCalls_results (gs : List Game) :
    ∀ (k j : Nat), j < wsize →
      (runCalls ⟨gs, j⟩ k).1
        = (List.range k).map (fun i => (gs.get? ((j + i) % wsize)).map taskFor) := by
  intro k
  induction k with
  | zero => intro j hj; simp [runCalls]
  | succ k ih =>
    intro j hj
    have hstep : (j + 1) % wsize < wsize := Nat.mod_lt _ (by rw [wsize_eq]; omega)
    simp only [runCalls, get_next_task_eq]
    rw [ih ((j + 1) % wsize) hstep, List.range_succ_eq_map]
    simp only [List.map_cons, List.map_map, Nat.add_zero, Nat.mod_eq_of_lt hj]
    congr 1
    apply List.map_congr_left
    intro i _
    have hmod : ((j + 1) % wsize + i) % wsize = (j + (i + 1)) % wsize := by
      rw [Nat.mod_add_mod]
      congr 1
      omega
    simp only [Function.comp_apply, hmod, Nat.succ_eq_add_one]

theorem map_range_get (gs : List Game) :
    (List.range gs.length).map (fun i => (gs.get? i).map taskFor)
      = gs.map (fun g => some (taskFor g)) := by
  induction gs with
  | nil => simp
  | cons g t ih =>
    rw [List.length_cons, List.range_succ_eq_map, List.map_cons, List.map_map]
    congr 1

/-- C2 (amended): for a coordinator built over `n` games, any linearized
sequence of `n + k` calls to `get_next_task` — for every `k ≥ 0` with
`n + k ≤ 2 ^ 64`, so that the `usize` cursor cannot wrap — returns the `n`
tasks in game order, each exactly once, followed by `k` `none` results; in
particular once `none` has been returned every later call in the sequence
returns `none` and no task is ever reissued. -/
theorem c2_one_shot_distribution (gs : List Game) (k : Nat)
    (h : gs.length + k ≤ wsize) :
    (runCalls (mkMoveMatching gs) (gs.length + k)).1
      = gs.map (fun g => some (taskFor g)) ++ List.replicate k none := by
  have h0 : (0 : Nat) < wsize := by rw [wsize_eq]; omega
  rw [show mkMoveMatching gs = ⟨gs, 0⟩ from rfl, runCalls_results gs _ 0 h0]
  have hpt : (List.range (gs.length + k)).map
        (fun i => (gs.get? ((0 + i) % wsize)).map taskFor)
      = (List.range (gs.length + k)).map (fun i => (gs.get? i).map taskFor) :=
    List.map_congr_left (fun i hi => by
      rw [List.mem_range] at hi
      rw [Nat.zero_add, Nat.mod_eq_of_lt (by omega)])
  rw [hpt, List.range_add, List.map_append, map_range_get]
  congr 1
  rw [List.map_map]
  refine List.eq_replicate_iff.mpr ⟨by simp, ?_⟩
  intro b hb
  simp only [List.mem_map, List.mem_range] at hb
  obtain ⟨i, hi, rfl⟩ := hb
  simp [List.get?_eq_none.mpr (Nat.le_add_right gs.length i)]

/-- C2 counterexample: the claim quantifies over every `k ≥ 0`, but the
cursor is a `usize` and `fetch_add` wraps: on a one-game coordinator, call
number 1 (zero-based) already returns `none`, yet call number `2 ^ 64`
returns `Some` again — the same game's task is reissued and `none` is not
permanent. -/
theorem c2_counterexample :
    (runCalls (mkMoveMatching [demoGame]) (1 + wsize)).1.get? 1 = some none ∧
    (runCalls (mkMoveMatching [demoGame]) (1 + wsize)).1.get? wsize
      = some (some (taskFor demoGame)) := by
  have h0 : (0 : Nat) < wsize := by rw [wsize_eq]; omega
  rw [show mkMoveMatching [demoGame] = ⟨[demoGame], 0⟩ from rfl,
      runCalls_results [demoGame] (1 + wsize) 0 h0]
  constructor
  · rw [List.get?_map, List.get?_range (by rw [wsize_eq]; omega)]
    rfl
  · rw [List.get?_map, List.get?_range (by omega)]
    rfl

/-- C2 witness: `c2_one_shot_distribution` on a one-game coordinator with
two extra calls. -/
theorem c2_witness :
    [demoGame].length + 2 ≤ wsize ∧
    (runCalls (mkMoveMatching [demoGame]) ([demoGame].length + 2)).1
      = [demoGame].map (fun g => some (taskFor g)) ++ List.replicate 2 none :=
  ⟨by rw [wsize_eq]; norm_num,
   c2_one_shot_distribution [demoGame] 2 (by rw [wsize_eq]; norm_num)⟩

/-- C5 counterexample: a boundary game with at most 7 moves has zero
expected evaluated positions, so the walk consumes it without underflow and
the resume cursor overshoots `k`: with one seven-move game and the `k = 0`
checkpoint budget (which is 0, exactly the summed counts of the first 0
games), the walk returns cursor 1 instead of 0; with two seven-move games
and the budget of the first `k = 1` games, cursor 2 instead of 1. -/
theorem c5_counterexample :
    totalExpected ([demoShortGame].take 0) = 0 ∧
    resumeWalk [demoShortGame] (totalExpected ([demoShortGame].take 0)) = (1, 0) ∧
    resumeWalk [demoShortGame, demoShortGame]
      (totalExpected ([demoShortGame, demoShortGame].take 1)) = (2, 0) :=
  ⟨rfl, rfl, rfl⟩

/-- C5 (amended, spec-modelled): rebuilding coordinator state from a
checkpoint walks games in original order, subtracting each game's expected
evaluated-position count from the declared total-position budget, a game
counting as fully completed as long as the subtraction does not underflow;
a checkpoint whose budget exactly matches the summed expected counts of the
first `k` games yields resume cursor `k` and a completed-position count
equal to that sum — unconditionally for `k = ` the total game count, and
for `k` below it provided the game at position `k` has at least one
expected evaluated position (more than 7 moves); a boundary game with 7 or
fewer moves is consumed at zero cost and the cursor overshoots `k`. -/
theorem c5_checkpoint_resume (gs : List Game) (k : Nat) (hk : k ≤ gs.length)
    (hbound : ∀ (h : k < gs.length), 0 < expectedPositions (gs.get ⟨k, h⟩)) :
    resumeWalk gs (totalExpected (gs.take k)) = (k, totalExpected (gs.take k)) := by
  induction gs generalizing k with
  | nil =>
    simp only [List.length_nil, Nat.le_zero] at hk
    subst hk
    simp [resumeWalk, totalExpected]
  | cons g t ih =>
    cases k with
    | zero =>
      have hg : 0 < expectedPositions g := hbound (Nat.succ_pos t.length)
      simp only [List.take_zero, totalExpected, List.map_nil, List.sum_nil]
      simp only [resumeWalk]
      rw [if_neg (by omega)]
    | succ k' =>
      have hsum : totalExpected (List.take (k' + 1) (g :: t))
          = expectedPositions g + totalExpected (t.take k') := by
        simp [totalExpected]
      rw [hsum]
      simp only [resumeWalk]
      rw [if_pos (Nat.le_add_right _ _), Nat.add_sub_cancel_left]
      rw [ih k' (by simpa using hk) (fun h => hbound (Nat.succ_lt_succ h))]
      simp [Nat.add_comm]

/-- C5 witness: `c5_checkpoint_resume` on a two-game list of ten-ply games
with `k = 1`. -/
theorem c5_witness :
    (1 ≤ ([demoGame, demoGame] : List Game).length) ∧
    (∀ (h : 1 < ([demoGame, demoGame] : List Game).length),
      0 < expectedPositions (([demoGame, demoGame] : List Game).get ⟨1, h⟩)) ∧
    resumeWalk [demoGame, demoGame] (totalExpected ([demoGame, demoGame].take 1))
      = (1, totalExpected ([demoGame, demoGame].take 1)) :=
  ⟨by norm_num, fun _ => show 0 < expectedPositions demoGame by decide,
   c5_checkpoint_resume [demoGame, demoGame] 1 (by norm_num)
     (fun _ => show 0 < expectedPositions demoGame by decide)⟩

theorem workerLoopCalls_drop (gs : List Game) (hw : gs.length < wsize) :
    ∀ (fuel j : Nat), j ≤ gs.length → gs.length - j < fuel →
      workerLoopCalls ⟨gs, j⟩ fuel = (gs.drop j).map taskFor := by
  intro fuel
  induction fuel with
  | zero =>
    intro j hj hf
    omega
  | succ fuel ih =>
    intro j hj hf
    rcases Nat.lt_or_ge j gs.length with hlt | hge
    · have hget : gs.get? j = some gs[j] := by
        rw [List.get?_eq_getElem?, List.getElem?_eq_getElem hlt]
      simp only [workerLoopCalls, get_next_task_eq, hget]
      show taskFor gs[j] :: workerLoopCalls ⟨gs, (j + 1) % wsize⟩ fuel
          = (gs.drop j).map taskFor
      rw [show (j + 1) % wsize = j + 1 from Nat.mod_eq_of_lt (by omega),
        ih (j + 1) (by omega) (by omega),
        List.drop_eq_getElem_cons hlt, List.map_cons]
    · have hget : gs.get? j = none := List.get?_eq_none.mpr hge
      simp only [workerLoopCalls, get_next_task_eq, hget]
      show ([] : List MoveMatchingTask) = (gs.drop j).map taskFor
      rw [List.drop_eq_nil_of_le hge]
      rfl

/-- C6 counterexample: with 4 requested threads, no command-line game cap,
and a database of a single game, the source spawns
`min(threads, games_count.unwrap_or(threads)) = 4` workers while the loaded
game list has length 1, so the claimed `min(t, n) = 1` is violated. -/
theorem c6_counterexample :
    workerCount 4 none = 4 ∧ loadedGamesLength 1 none = 1 ∧
    ¬ workerCount 4 none = min 4 (loadedGamesLength 1 none) :=
  ⟨rfl, rfl, by decide⟩

/-- C6 (amended): the number of spawned worker loops is
`min(threads, games_count.unwrap_or(threads))`: when a game cap is supplied
on the command line the loaded list has exactly that length and the worker
count is `min(t, n)`; when no cap is supplied, exactly `t` workers are
spawned regardless of the loaded game count.  Each worker loop pulls tasks
from `get_next_task` until it returns `none`: a single worker loop over a
fresh `n`-game coordinator performs exactly the `n` tasks in game order and
exits at the first `none`. -/
theorem c6_worker_count (t dbLen cap : Nat) :
    (workerCount t (some cap) = min t (loadedGamesLength dbLen (some cap)) ∧
     workerCount t none = t) ∧
    (∀ (gs : List Game) (fuel : Nat), gs.length < wsize → gs.length < fuel →
      workerLoopCalls (mkMoveMatching gs) fuel = gs.map taskFor) := by
  refine ⟨⟨rfl, by simp [workerCount, Option.getD]⟩, ?_⟩
  intro gs fuel hw hf
  have h := workerLoopCalls_drop gs hw fuel 0 (Nat.zero_le _) (by omega)
  simpa using h

/-- C6 witness: the worker-loop part of `c6_worker_count` applied to a
one-game coordinator with fuel 2. -/
theorem c6_witness :
    ([demoGame] : List Game).length < wsize ∧ ([demoGame] : List Game).length < 2 ∧
    workerLoopCalls (mkMoveMatching [demoGame]) 2 = [demoGame].map taskFor :=
  ⟨by rw [wsize_eq]; norm_num, by norm_num,
   (c6_worker_count 4 1 1).2 [demoGame] 2 (by rw [wsize_eq]; norm_num) (by norm_num)⟩


end RenjuMM
